import Mathlib

set_option maxRecDepth 100000

/-!
Verification development for the obsidian-random-highlight plugin
(BookHighlightsView.ts and main.ts).

The TypeScript source is shallowly embedded as executable Lean functions.
Strings are modelled as lists of characters; each regular expression used
by the source is embedded as a dedicated matcher implementing exactly the
leftmost-match/backtracking behaviour of that concrete pattern.  External
collaborators (the js-yaml decoder, the vault, the DOM display surface,
Math.random and the binary64 number printing of the engine) are modelled
as explicit parameters: the yaml decoder as a function argument,
randomness as a stream of fair booleans driving the comparison sort, the
display surface as a list of rendered strings, and the map from a JSON
number literal to the String coercion of its parsed value as a function
argument.
-/

namespace RandomHighlight

/-- The whitespace set used to model the JavaScript trim function and the
regex class backslash-s on the ASCII inputs that occur in this file:
space, tab, line feed, carriage return, vertical tab and form feed. -/
def isJsWs (c : Char) : Bool :=
  " \t\n\r\x0b\x0c".data.contains c

/-- Model of String.prototype.trim on a character list. -/
def jsTrimL (s : List Char) : List Char :=
  ((s.dropWhile isJsWs).reverse.dropWhile isJsWs).reverse

/-- Model of String.prototype.trim. -/
def jsTrimS (s : String) : String :=
  String.mk (jsTrimL s.data)

/-- A matcher tries a concrete regex at the start of the given suffix and
returns the length of the matched span together with a payload (for the
field regexes: the first capture group). -/
def PatAt (α : Type) : Type := List Char → Option (Nat × α)

/-- Leftmost-match search: the position, length and payload of the first
match of the pattern in the string, scanning positions left to right as a
JavaScript regex engine does. -/
def findPat (m : PatAt α) : List Char → Option (Nat × Nat × α)
  | [] => (m []).map fun p => (0, p.1, p.2)
  | c :: cs =>
    match m (c :: cs) with
    | some p => some (0, p.1, p.2)
    | none => (findPat m cs).map fun q => (q.1 + 1, q.2.1, q.2.2)

/-- Model of String.prototype.replace with a non-global regex and an empty
replacement: remove the leftmost match, if any. -/
def removeFirst (m : PatAt α) (s : List Char) : List Char :=
  match findPat m s with
  | some (i, len, _) => s.take i ++ s.drop (i + len)
  | none => s

/-- Matcher for the regex Highlighted colon space, then one or more
non-newline characters as the capture (greedy to the end of the line). -/
def tryHighlighted : PatAt String := fun s =>
  let lab := "Highlighted: ".data
  if lab.isPrefixOf s then
    let cap := (s.drop lab.length).takeWhile (fun c => c != '\n')
    if cap.isEmpty then none
    else some (lab.length + cap.length, String.mk cap)
  else none

/-- Shared tail of the page and location regexes: a colon, a space and one
or more digits (the capture). -/
def tryColonInt : PatAt String := fun s =>
  if (": ".data).isPrefixOf s then
    let d := (s.drop 2).takeWhile Char.isDigit
    if d.isEmpty then none else some (2 + d.length, String.mk d)
  else none

/-- Matcher for the regex Page, an optional space Number, a colon, a space
and a captured digit run.  The optional group is greedy and backtracks,
exactly as in the source pattern. -/
def tryPage : PatAt String := fun s =>
  if ("Page".data).isPrefixOf s then
    let rest := s.drop 4
    let withNumber :=
      if (" Number".data).isPrefixOf rest then
        (tryColonInt (rest.drop 7)).map fun p => (4 + 7 + p.1, p.2)
      else none
    match withNumber with
    | some r => some r
    | none => (tryColonInt rest).map fun p => (4 + p.1, p.2)
  else none

/-- Matcher for the regex Location, a colon, a space and a captured digit
run. -/
def tryLocation : PatAt String := fun s =>
  if ("Location".data).isPrefixOf s then
    (tryColonInt (s.drop 8)).map fun p => (8 + p.1, p.2)
  else none

/-- The regex word class: ASCII letters, digits and underscore. -/
def isWordChar (c : Char) : Bool :=
  c.isAlpha || c.isDigit || c == '_'

/-- The lookahead terminating the comment capture: end of string, or a
newline followed by one or more word characters and a colon. -/
def commentStopHere : List Char → Bool
  | [] => true
  | c :: rest =>
    c == '\n' &&
      (let w := rest.takeWhile isWordChar
       !w.isEmpty &&
         (match rest.drop w.length with
          | ':' :: _ => true
          | _ => false))

/-- Length of the shortest (lazy) span whose end satisfies the stopping
predicate; every stopping predicate used here accepts the empty suffix, so
the scan always succeeds. -/
def lazyCountUntil (stop : List Char → Bool) : List Char → Nat
  | [] => 0
  | c :: cs => if stop (c :: cs) then 0 else 1 + lazyCountUntil stop cs

/-- Matcher for the regex My Comments colon, then a lazy capture of
anything up to the next label-like line or the end of the block. -/
def tryMyComments : PatAt String := fun s =>
  let lab := "My Comments:".data
  if lab.isPrefixOf s then
    let rest := s.drop lab.length
    let k := lazyCountUntil commentStopHere rest
    some (lab.length + k, String.mk (rest.take k))
  else none

/-! Block cleaning and the ordered sub-field rule table, translated from
extractHighlights in BookHighlightsView.ts. -/

/-- Model of the replace of a leading newline-quote marker: the anchored
regex removes one leading occurrence of newline, greater-than, space. -/
def stripLeadQuote (s : List Char) : List Char :=
  if ("\n> ".data).isPrefixOf s then s.drop 3 else s

/-- Model of the global replace of newline, greater-than, space by a bare
newline; as in the source, replaced text is not rescanned. -/
def replaceQuoteMarks : List Char → List Char
  | '\n' :: '>' :: ' ' :: rest => '\n' :: replaceQuoteMarks rest
  | c :: rest => c :: replaceQuoteMarks rest
  | [] => []

/-- The cleanup applied to a raw callout capture before field extraction. -/
def cleanCallout (raw : List Char) : List Char :=
  jsTrimL (replaceQuoteMarks (stripLeadQuote raw))

/-- The four sub-fields targeted by the metadata rule table. -/
inductive FieldTag
  | date
  | page
  | location
  | comment
deriving DecidableEq, Repr

/-- Working state of the rule loop: the four extracted fields and the
remaining working text. -/
structure FieldState where
  date : String
  page : String
  location : String
  comment : String
  text : List Char
deriving DecidableEq, Repr

/-- Store a rule result in its target field. -/
def setField (t : FieldTag) (v : String) (st : FieldState) : FieldState :=
  match t with
  | .date => { st with date := v }
  | .page => { st with page := v }
  | .location => { st with location := v }
  | .comment => { st with comment := v }

/-- The metadataPatterns table of the source, in source order. -/
def metadataRules : List (PatAt String × FieldTag) :=
  [(tryHighlighted, .date), (tryPage, .page),
   (tryLocation, .location), (tryMyComments, .comment)]

/-- One iteration of the rule loop, translated from the source: the rule
is matched against the cleaned callout content cc (which the loop never
mutates); on success the trimmed capture is stored and the first match of
the same pattern is removed from the working text, which is then
trimmed. -/
def applyRule (cc : List Char) (st : FieldState) (r : PatAt String × FieldTag) :
    FieldState :=
  match findPat r.1 cc with
  | some (_, _, cap) =>
    { setField r.2 (jsTrimS cap) st with text := jsTrimL (removeFirst r.1 st.text) }
  | none => st

/-- Model of the anchored replace removing a literal Link label and space
prefix. -/
def stripLink (s : List Char) : List Char :=
  if ("Link: ".data).isPrefixOf s then s.drop 6 else s

/-- Model of the replace removing optional whitespace, a caret, the
letters ref, a hyphen and one or more digits at the end of the text. -/
def stripRefTag (s : List Char) : List Char :=
  let r := s.reverse
  let d := r.takeWhile Char.isDigit
  if d.isEmpty then s
  else
    let r2 := r.drop d.length
    if ("-fer^".data).isPrefixOf r2 then ((r2.drop 5).dropWhile isJsWs).reverse
    else s

/-- Field extraction for one cleaned callout block: apply the rule table
in order, then strip the Link prefix and the trailing reference tag and
trim.  This is the loop body of extractHighlights. -/
def extractFields (cc : List Char) : FieldState :=
  let st := metadataRules.foldl (applyRule cc)
    { date := "", page := "", location := "", comment := "", text := cc }
  { st with text := jsTrimL (stripRefTag (stripLink st.text)) }

/-- Modelled from the spec wording of claim C1: the same rule table, but
each rule is tried against the current working text and a successful
match removes exactly its own matched span from that working text before
the next rule is tried.  Used only to compare the claimed behaviour with
the source behaviour. -/
def specApplyRule (st : FieldState) (r : PatAt String × FieldTag) : FieldState :=
  match findPat r.1 st.text with
  | some (i, len, cap) =>
    { setField r.2 (jsTrimS cap) st with
        text := jsTrimL (st.text.take i ++ st.text.drop (i + len)) }
  | none => st

/-- Modelled from the spec wording of claim C1: field extraction where the
working text is both the match target and the removal target. -/
def specExtractFields (cc : List Char) : FieldState :=
  let st := metadataRules.foldl specApplyRule
    { date := "", page := "", location := "", comment := "", text := cc }
  { st with text := jsTrimL (stripRefTag (stripLink st.text)) }

/-! The callout scanner: the global regex locating annotation blocks. -/

/-- The lookahead ending a callout capture: end of content, a blank line,
or the start of the next callout. -/
def calloutStopHere (s : List Char) : Bool :=
  s.isEmpty || ("\n\n".data).isPrefixOf s || ("\n> [!".data).isPrefixOf s

/-- Matcher for one callout at the start of the suffix: the literal
greater-than, space, open bracket, bang introducer, a nonempty tag of
non-bracket characters, a closing bracket, and a lazy content capture up
to the callout lookahead.  Payload: tag and raw content. -/
def tryCallout : PatAt (String × String) := fun s =>
  if ("> [!".data).isPrefixOf s then
    let afterOpen := s.drop 4
    let tag := afterOpen.takeWhile (fun c => c != ']')
    if tag.isEmpty then none
    else
      match afterOpen.drop tag.length with
      | ']' :: rest =>
        let k := lazyCountUntil calloutStopHere rest
        some (4 + tag.length + 1 + k, (String.mk tag, String.mk (rest.take k)))
      | _ => none
  else none

/-- The exec loop of the callout regex: repeatedly take the leftmost match
and continue after it.  Every match consumes at least six characters, so a
fuel of the content length plus one is always sufficient. -/
def scanCallouts : Nat → List Char → List (String × String)
  | 0, _ => []
  | fuel + 1, s =>
    match findPat tryCallout s with
    | none => []
    | some (i, len, blk) => blk :: scanCallouts fuel (s.drop (i + len))

/-! Generic JavaScript values, used for frontmatter properties. -/

/-- The value forms a frontmatter property can take at runtime.  A number
is carried as the string its String coercion produces (the only way the
program observes a number is through String coercion and truthiness); an
absent property is an absent lookup rather than a constructor. -/
inductive JsValue
  | str (s : String)
  | num (repr : String)
  | bool (b : Bool)
  | null
  | arr (xs : List JsValue)
  | obj (fields : List (String × JsValue))
deriving Repr

mutual

/-- Model of the String coercion.  A number renders as its carried
representation, a plain object as the bracketed object placeholder, and
an array as the join with commas, where null elements render as the
empty string, matching Array.prototype.toString. -/
def jsToString : JsValue → String
  | .str s => s
  | .num r => r
  | .bool b => if b then "true" else "false"
  | .null => "null"
  | .arr xs => String.intercalate "," (jsArrParts xs)
  | .obj _ => "[object Object]"

/-- The per-element rendering used by the array join. -/
def jsArrParts : List JsValue → List String
  | [] => []
  | .null :: rest => "" :: jsArrParts rest
  | v :: rest => jsToString v :: jsArrParts rest

end

/-- Model of JavaScript truthiness for the values above.  The falsy
numbers are exactly those whose String coercion is the digit zero (both
zeroes) or the not-a-number marker. -/
def jsTruthy : JsValue → Bool
  | .str s => !(s.isEmpty)
  | .num r => !(r == "0" || r == "NaN")
  | .bool b => b
  | .null => false
  | .arr _ => true
  | .obj _ => true

/-- A parsed frontmatter block: an association list from property names
to values, modelling the plain object returned by the yaml decoder. -/
abbrev Frontmatter := List (String × JsValue)

/-- Property lookup on a frontmatter object; none models undefined. -/
def fmLookup (fm : Frontmatter) (key : String) : Option JsValue :=
  (fm.find? fun p => p.1 == key).map fun p => p.2

/-! A model of JSON.parse, used by the filter evaluator on string-valued
properties.  The parser covers the full JSON grammar: strings with every
escape including the unicode form (with surrogate pairs combined into one
code point), numbers with optional fraction and exponent, booleans, null,
arrays and objects.  The one aspect the embedding does not model is
binary64 arithmetic: what the program observes of a parsed number is only
the String coercion of its value, so that observation — the map from a
number literal to the decimal string the engine prints for it — is taken
as an explicit parameter NumSem, and every theorem below holds for the
engine map in particular.  One boundary remains: a string value with an
unpaired surrogate escape is accepted by the engine but has no
representation as a sequence of unicode scalar values, which is how this
embedding models strings, so the model parser rejects it. -/

/-- The engine observation of a parsed JSON number: the String coercion
of the binary64 value a given number literal parses to. -/
abbrev NumSem := String → String

/-- JSON insignificant whitespace. -/
def isJsonWs (c : Char) : Bool :=
  " \t\n\r".data.contains c

/-- The single-character JSON string escape table. -/
def jsonEscPairs : List (Char × Char) :=
  [('"', '"'), ('\\', '\\'), ('/', '/'), ('n', '\n'),
   ('t', '\t'), ('r', '\r'), ('b', '\x08'), ('f', '\x0c')]

/-- Resolve one single-character escape through the table. -/
def jsonEscChar (e : Char) : Option Char :=
  (jsonEscPairs.find? fun p => p.1 == e).map fun p => p.2

/-- The value of one hexadecimal digit, either case. -/
def hexVal (c : Char) : Option Nat :=
  if c.isDigit then some (c.toNat - 48)
  else if 'a' ≤ c && c ≤ 'f' then some (c.toNat - 87)
  else if 'A' ≤ c && c ≤ 'F' then some (c.toNat - 55)
  else none

/-- The value of a four-digit hexadecimal escape body. -/
def hex4 (a b c d : Char) : Option Nat :=
  match hexVal a, hexVal b, hexVal c, hexVal d with
  | some x, some y, some z, some w => some (((x * 16 + y) * 16 + z) * 16 + w)
  | _, _, _, _ => none

/-- Parse the body of a JSON string after the opening quote, returning the
content and the remainder after the closing quote.  Unescaped control
characters are rejected as the grammar requires; unicode escapes are
decoded, and a high surrogate escape followed by a low surrogate escape is
combined into the encoded code point; an unpaired surrogate escape is
rejected (see the section comment). -/
def parseJsonStrAux : List Char → Option (List Char × List Char)
  | [] => none
  | '"' :: rest => some ([], rest)
  | '\\' :: 'u' :: a :: b :: c :: d :: rest =>
    (match hex4 a b c d with
     | none => none
     | some n =>
       if n < 0xd800 || 0xdfff < n then
         (parseJsonStrAux rest).map fun p => (Char.ofNat n :: p.1, p.2)
       else if n ≤ 0xdbff then
         match rest with
         | '\\' :: 'u' :: a2 :: b2 :: c2 :: d2 :: rest2 =>
           (match hex4 a2 b2 c2 d2 with
            | some m =>
              if 0xdc00 ≤ m && m ≤ 0xdfff then
                (parseJsonStrAux rest2).map fun p =>
                  (Char.ofNat (0x10000 + (n - 0xd800) * 0x400 + (m - 0xdc00)) :: p.1, p.2)
              else none
            | none => none)
         | _ => none
       else none)
  | '\\' :: [] => none
  | '\\' :: e :: rest =>
    match jsonEscChar e with
    | none => none
    | some ch => (parseJsonStrAux rest).map fun p => (ch :: p.1, p.2)
  | c :: rest =>
    if c.toNat < 32 then none
    else (parseJsonStrAux rest).map fun p => (c :: p.1, p.2)

/-- Parse a JSON number literal, returning its lexeme and the remainder:
an optional minus, an integer part that is a single zero or starts with a
nonzero digit, an optional fraction of one or more digits, and an
optional exponent with optional sign and one or more digits. -/
def parseJsonNum (s : List Char) : Option (List Char × List Char) :=
  let (sign, s1) := match s with
    | '-' :: rest => (['-'], rest)
    | _ => (([] : List Char), s)
  let intPart : Option (List Char × List Char) := match s1 with
    | '0' :: rest => some (['0'], rest)
    | c :: rest =>
      if c.isDigit then some (c :: rest.takeWhile Char.isDigit, rest.dropWhile Char.isDigit)
      else none
    | [] => none
  match intPart with
  | none => none
  | some (ip, s2) =>
    let fracPart : Option (List Char × List Char) := match s2 with
      | '.' :: r =>
        let ds := r.takeWhile Char.isDigit
        if ds.isEmpty then none else some ('.' :: ds, r.drop ds.length)
      | _ => some ([], s2)
    match fracPart with
    | none => none
    | some (fp, s3) =>
      let expPart : Option (List Char × List Char) := match s3 with
        | e :: r =>
          if e == 'e' || e == 'E' then
            let (es, r1) := match r with
              | '+' :: r2 => (['+'], r2)
              | '-' :: r2 => (['-'], r2)
              | _ => (([] : List Char), r)
            let ds := r1.takeWhile Char.isDigit
            if ds.isEmpty then none else some (e :: (es ++ ds), r1.drop ds.length)
          else some ([], s3)
        | [] => some ([], s3)
      match expPart with
      | none => none
      | some (ep, s4) => some (sign ++ ip ++ fp ++ ep, s4)

mutual

/-- Parse one JSON value.  The fuel only bounds the recursion: at most two
units are spent per consumed input character, so the initial fuel chosen
in jsonParse always suffices. -/
def parseJsonVal (numSem : NumSem) : Nat → List Char → Option (JsValue × List Char)
  | 0, _ => none
  | fuel + 1, s =>
    let s1 := s.dropWhile isJsonWs
    match s1 with
    | [] => none
    | '"' :: rest => (parseJsonStrAux rest).map fun p => (.str (String.mk p.1), p.2)
    | '[' :: rest =>
      let r1 := rest.dropWhile isJsonWs
      (match r1 with
       | ']' :: r2 => some (.arr [], r2)
       | _ => (parseJsonElems numSem fuel r1).map fun p => (.arr p.1, p.2))
    | '\x7b' :: rest =>
      let r1 := rest.dropWhile isJsonWs
      (match r1 with
       | '\x7d' :: r2 => some (.obj [], r2)
       | _ => (parseJsonMembers numSem fuel r1).map fun p => (.obj p.1, p.2))
    | 't' :: rest =>
      if ("rue".data).isPrefixOf rest then some (.bool true, rest.drop 3) else none
    | 'f' :: rest =>
      if ("alse".data).isPrefixOf rest then some (.bool false, rest.drop 4) else none
    | 'n' :: rest =>
      if ("ull".data).isPrefixOf rest then some (.null, rest.drop 3) else none
    | _ => (parseJsonNum s1).map fun p => (.num (numSem (String.mk p.1)), p.2)

/-- Parse a comma-separated nonempty element list up to the closing
bracket. -/
def parseJsonElems (numSem : NumSem) : Nat → List Char → Option (List JsValue × List Char)
  | 0, _ => none
  | fuel + 1, s =>
    match parseJsonVal numSem fuel s with
    | none => none
    | some (v, rest) =>
      match rest.dropWhile isJsonWs with
      | ',' :: r2 => (parseJsonElems numSem fuel r2).map fun p => (v :: p.1, p.2)
      | ']' :: r2 => some ([v], r2)
      | _ => none

/-- Parse a comma-separated nonempty member list up to the closing brace:
each member is a string key, a colon and a value. -/
def parseJsonMembers (numSem : NumSem) :
    Nat → List Char → Option (List (String × JsValue) × List Char)
  | 0, _ => none
  | fuel + 1, s =>
    match s with
    | '"' :: rest =>
      (match parseJsonStrAux rest with
       | none => none
       | some (key, r1) =>
         match r1.dropWhile isJsonWs with
         | ':' :: r2 =>
           (match parseJsonVal numSem fuel r2 with
            | none => none
            | some (v, r3) =>
              match r3.dropWhile isJsonWs with
              | ',' :: r4 =>
                (parseJsonMembers numSem fuel (r4.dropWhile isJsonWs)).map fun p =>
                  ((String.mk key, v) :: p.1, p.2)
              | '\x7d' :: r4 => some ([(String.mk key, v)], r4)
              | _ => none)
         | _ => none)
    | _ => none

end

/-- Model of JSON.parse returning none on any parse error, including
trailing content.  Two fuel units per character cover the worst case of
one value call and one list call per consumed character. -/
def jsonParse (numSem : NumSem) (s : String) : Option JsValue :=
  match parseJsonVal numSem (2 * s.length + 4) s.data with
  | some (v, rest) => if (rest.dropWhile isJsonWs).isEmpty then some v else none
  | none => none

/-- The filter evaluation of refreshHighlights, translated from the
property-matching block: absent property never matches; an array matches
if any element stringifies and trims to the target; a string is first
tried as a JSON array (a non-array parse or a parse error fall back to
direct comparison); any other value compares its String coercion, always
after trimming both sides. -/
def filterMatches (numSem : NumSem) (fm : Frontmatter) (prop target : String) : Bool :=
  match fmLookup fm prop with
  | none => false
  | some v =>
    match v with
    | .arr items => items.any fun it => jsTrimS (jsToString it) == jsTrimS target
    | .str sv =>
      (match jsonParse numSem sv with
       | some (.arr items) => items.any fun it => jsTrimS (jsToString it) == jsTrimS target
       | _ => jsTrimS sv == jsTrimS target)
    | other => jsTrimS (jsToString other) == jsTrimS target

/-! The frontmatter extractor. -/

/-- Lazy capture of the frontmatter regex: the content before the first
newline-delimiter occurrence, or none when no such occurrence exists. -/
def fmCapture : List Char → Option (List Char)
  | [] => none
  | c :: cs =>
    if ("\n---".data).isPrefixOf (c :: cs) then some []
    else (fmCapture cs).map fun r => c :: r

/-- The anchored frontmatter regex of extractFrontmatter: the content must
begin with the delimiter line, and the captured block runs to the next
newline immediately followed by the delimiter (the closing delimiter need
only begin its line). -/
def fmSplit (content : String) : Option String :=
  if ("---\n".data).isPrefixOf content.data then
    (fmCapture (content.data.drop 4)).map String.mk
  else none

/-- The extractFrontmatter method.  The external yaml decoder is a
parameter: an error models a thrown exception (caught and mapped to no
metadata), ok none models a null-ish decode (mapped to the empty object
by the or-else in the source), and ok some is a decoded mapping. -/
def extractFrontmatter (yload : String → Except Unit (Option Frontmatter))
    (content : String) : Option Frontmatter :=
  match fmSplit content with
  | none => none
  | some block =>
    match yload block with
    | .error _ => none
    | .ok none => some []
    | .ok (some fm) => some fm

/-- Split a character list into its newline-separated lines. -/
def splitLines : List Char → List (List Char)
  | [] => [[]]
  | '\n' :: rest => [] :: splitLines rest
  | c :: rest =>
    match splitLines rest with
    | l :: ls => (c :: l) :: ls
    | [] => [[c]]

/-- Modelled from the spec wording of claim C6: the text begins with a
line containing only the delimiter and some later line again contains
only the delimiter. -/
def specHasDelimiterPair (content : String) : Bool :=
  match splitLines content.data with
  | [] => false
  | first :: rest => first == "---".data && rest.contains ("---".data)

/-! The filename parser parseTitleAndAuthor. -/

/-- The title placeholder of the filename format. -/
def titlePH : List Char := "\x7b\x7btitle\x7d\x7d".data

/-- The author placeholder of the filename format. -/
def authorPH : List Char := "\x7b\x7bauthor\x7d\x7d".data

/-- One element of the pattern built from the format: a literal character
(every regex metacharacter of the format is escaped by the source, so all
non-placeholder text is literal) or a greedy one-or-more capture group. -/
inductive FTok
  | lit (c : Char)
  | group
deriving DecidableEq, Repr

/-- Tokenize a format string into literals and capture groups.  The two
placeholder replacements of the source cannot interfere with each other,
so a single left-to-right scan is equivalent. -/
def tokenizeFormat : Nat → List Char → List FTok
  | _, [] => []
  | 0, _ :: _ => []
  | fuel + 1, c :: cs =>
    if titlePH.isPrefixOf (c :: cs) then
      .group :: tokenizeFormat fuel ((c :: cs).drop titlePH.length)
    else if authorPH.isPrefixOf (c :: cs) then
      .group :: tokenizeFormat fuel ((c :: cs).drop authorPH.length)
    else .lit c :: tokenizeFormat fuel cs

/-- Backtracking matcher for a token pattern anchored at both ends, with
greedy capture groups tried longest first, as the regex engine does.  A
group matches one or more characters none of which is a newline.  Returns
the captures in group order.  The fuel only needs to exceed the token
count. -/
def matchToksF : Nat → List FTok → List Char → Option (List (List Char))
  | _, [], s => if s.isEmpty then some [] else none
  | 0, _ :: _, _ => none
  | fuel + 1, .lit c :: ts, s =>
    match s with
    | [] => none
    | d :: ds => if d == c then matchToksF fuel ts ds else none
  | fuel + 1, .group :: ts, s =>
    let m := (s.takeWhile fun c => c != '\n').length
    (List.range m).reverse.findSome? fun k =>
      (matchToksF fuel ts (s.drop (k + 1))).map fun caps => s.take (k + 1) :: caps

/-- First index of a substring, modelling String.prototype.indexOf with a
found/not-found option instead of minus one. -/
def indexOfSub (pat : List Char) : List Char → Option Nat
  | [] => if pat.isEmpty then some 0 else none
  | c :: cs =>
    if pat.isPrefixOf (c :: cs) then some 0
    else (indexOfSub pat cs).map (· + 1)

/-- Model of the case-insensitive removal of a trailing md, markdown or
txt extension. -/
def stripExtL (s : List Char) : List Char :=
  let rlow := (s.map Char.toLower).reverse
  if ("dm.".data).isPrefixOf rlow then s.take (s.length - 3)
  else if ("nwodkram.".data).isPrefixOf rlow then s.take (s.length - 9)
  else if ("txt.".data).isPrefixOf rlow then s.take (s.length - 4)
  else s

/-- Result of the filename parser. -/
structure TitleAuthor where
  title : String
  author : Option String
deriving DecidableEq, Repr

/-- The default filename format of the source settings. -/
def defaultFormat : String := "\x7b\x7btitle\x7d\x7d by \x7b\x7bauthor\x7d\x7d"

/-- Build the anchored pattern from a format and match it against a
basename, returning the captures. -/
def matchFormat (format : String) (basename : String) : Option (List String) :=
  let toks := tokenizeFormat format.length format.data
  (matchToksF (toks.length + 1) toks basename.data).map fun caps => caps.map String.mk

/-- The parseTitleAndAuthor method: strip the extension, fall back to the
default format when the setting is empty, match the anchored pattern, and
assign captures by the order of first placeholder occurrence; a format
with only one placeholder assigns the single capture to the title (also
in the author-only case); on no match the basename becomes the title. -/
def parseTitleAndAuthor (formatSetting : String) (filename : String) : TitleAuthor :=
  let basename := String.mk (stripExtL filename.data)
  let format := if formatSetting.isEmpty then defaultFormat else formatSetting
  match matchFormat format basename with
  | some caps =>
    (match indexOfSub titlePH format.data, indexOfSub authorPH format.data with
     | some ti, some ai =>
       if ti < ai then { title := caps.getD 0 "", author := some (caps.getD 1 "") }
       else { title := caps.getD 1 "", author := some (caps.getD 0 "") }
     | some _, none => { title := caps.getD 0 "", author := none }
     | none, some _ => { title := caps.getD 0 "", author := none }
     | none, none => { title := basename, author := none })
  | none => { title := basename, author := none }

/-! The highlight record and the document-level extractor. -/

/-- The BookHighlight record of the source. -/
structure BookHighlight where
  bookTitle : String
  author : Option String
  date : String
  page : String
  location : String
  text : String
  comment : String
  sourceFile : String
deriving DecidableEq, Repr

/-- Model of splitting the path on slashes and popping the last segment
(with the or-else collapsing an empty pop to the empty string): the
characters after the last slash. -/
def afterLastSlash (s : List Char) : List Char :=
  (s.reverse.takeWhile fun c => c != '/').reverse

/-- Model of the or-else chain on a frontmatter value: a truthy value is
used (coerced to a string), anything else falls through. -/
def orTruthyStr (v : Option JsValue) (next : String) : String :=
  match v with
  | some x => if jsTruthy x then jsToString x else next
  | none => next

/-- Model of the or-else between an optional string and null: an empty
string is falsy and collapses to none. -/
def orElseNull (o : Option String) : Option String :=
  match o with
  | some a => if a.isEmpty then none else some a
  | none => none

/-- Build one highlight from a scanned callout block, or none when the
cleaned text is empty.  Translated from the loop body of
extractHighlights, including the title and author resolution chains. -/
def mkBookHighlight (formatSetting filePath : String) (fm : Frontmatter)
    (blk : String × String) : Option BookHighlight :=
  let f := extractFields (cleanCallout blk.2.data)
  if f.text.isEmpty then none
  else
    let filename := String.mk (afterLastSlash filePath.data)
    let ta := parseTitleAndAuthor formatSetting filename
    let bookTitle := orTruthyStr (fmLookup fm "title")
      (if !ta.title.isEmpty then ta.title else "Unknown Book")
    let author : Option String :=
      match fmLookup fm "author" with
      | some x => if jsTruthy x then some (jsToString x) else orElseNull ta.author
      | none => orElseNull ta.author
    some
      { bookTitle := bookTitle
        author := author
        date := f.date
        page := f.page
        location := f.location
        text := String.mk f.text
        comment := f.comment
        sourceFile := filePath }

/-- The extractHighlights method: scan the content for callout blocks and
emit one highlight per block with nonempty cleaned text, in document
order. -/
def extractHighlights (formatSetting content filePath : String)
    (fm : Frontmatter) : List BookHighlight :=
  (scanCallouts (content.length + 1) content.data).filterMap
    (mkBookHighlight formatSetting filePath fm)

/-! The refresh pass: settings, per-document processing, accumulation with
the maximum-highlights cap, and pass-level error handling. -/

/-- The plugin settings consumed by the embedded pipeline. -/
structure Settings where
  filterProperty : String
  filterValue : String
  filenameFormat : String
  maxHighlights : Nat
  randomHighlightsCount : Nat
deriving Repr

/-- A vault document: its path and the result of reading it, where none
models a read that throws (caught by the per-document guard, so the
document is skipped). -/
structure Doc where
  path : String
  content : Option String
deriving Repr

/-- The filter gate of refreshHighlights: filtering applies only when both
the configured property and value are nonempty (both are truthy), and then
a document passes exactly when the filter evaluator matches. -/
def docPasses (numSem : NumSem) (s : Settings) (fm : Frontmatter) : Bool :=
  if s.filterProperty ≠ "" ∧ s.filterValue ≠ "" then
    filterMatches numSem fm s.filterProperty s.filterValue
  else true

/-- The accumulation loop of refreshHighlights: read each document, skip
it on read failure, missing frontmatter or filter mismatch, append its
extracted highlights, and after each processed document truncate to the
maximum and stop when a positive maximum has been reached. -/
def refreshPool (s : Settings) (numSem : NumSem)
    (yload : String → Except Unit (Option Frontmatter)) :
    List Doc → List BookHighlight → List BookHighlight
  | [], acc => acc
  | d :: ds, acc =>
    match d.content with
    | none => refreshPool s numSem yload ds acc
    | some content =>
      match extractFrontmatter yload content with
      | none => refreshPool s numSem yload ds acc
      | some fm =>
        if docPasses numSem s fm then
          let acc2 := acc ++ extractHighlights s.filenameFormat content d.path fm
          if 0 < s.maxHighlights ∧ s.maxHighlights ≤ acc2.length then
            acc2.take s.maxHighlights
          else refreshPool s numSem yload ds acc2
        else refreshPool s numSem yload ds acc

/-- The raw highlight sequence a scan of the corpus would produce with no
cap: the concatenation, in scan order, of the highlights of every readable
document that has frontmatter and passes the filter. -/
def rawHighlights (s : Settings) (numSem : NumSem)
    (yload : String → Except Unit (Option Frontmatter)) :
    List Doc → List BookHighlight
  | [] => []
  | d :: ds =>
    match d.content with
    | none => rawHighlights s numSem yload ds
    | some content =>
      match extractFrontmatter yload content with
      | none => rawHighlights s numSem yload ds
      | some fm =>
        (if docPasses numSem s fm then extractHighlights s.filenameFormat content d.path fm
         else []) ++ rawHighlights s numSem yload ds

/-- Modelled from the spec wording of claim C8: the raw highlight sequence
when every document in scope is passed to the highlight extractor with no
filter test at all. -/
def rawHighlightsUnfiltered (format : String)
    (yload : String → Except Unit (Option Frontmatter)) : List Doc → List BookHighlight
  | [] => []
  | d :: ds =>
    match d.content with
    | none => rawHighlightsUnfiltered format yload ds
    | some content =>
      match extractFrontmatter yload content with
      | none => rawHighlightsUnfiltered format yload ds
      | some fm =>
        extractHighlights format content d.path fm ++ rawHighlightsUnfiltered format yload ds

/-! The sampler getRandomHighlights.  The source shuffles a copy of the
pool with a comparison sort whose comparator returns one half minus a
fresh Math.random value, so only the random sign of each comparison
matters.  The sort is modelled as an insertion sort driven by a stream of
fair booleans, one per comparison; the ECMAScript specification leaves
the order produced by an inconsistent comparator implementation-defined,
so some concrete comparison sort must be fixed for the model. -/

/-- Insert one element into a list, consuming one random boolean per
comparison: true places the element before the current head, false moves
past it. -/
def insertRand (x : α) : List α → List Bool → List α × List Bool
  | [], bs => ([x], bs)
  | y :: ys, [] => (x :: y :: ys, [])
  | y :: ys, b :: bs =>
    if b then (x :: y :: ys, bs)
    else
      let r := insertRand x ys bs
      (y :: r.1, r.2)

/-- Insertion sort driven by the random comparison stream. -/
def sortRand : List α → List Bool → List α × List Bool
  | [], bs => ([], bs)
  | x :: xs, bs =>
    let r := sortRand xs bs
    insertRand x r.1 r.2

/-- The getRandomHighlights method: empty pool gives an empty selection;
otherwise shuffle a copy of the pool and take the first
min(configured count, pool size) entries. -/
def getRandomHighlights (s : Settings) (pool : List BookHighlight)
    (bits : List Bool) : List BookHighlight :=
  if pool.isEmpty then []
  else
    let count := min s.randomHighlightsCount pool.length
    ((sortRand pool bits).1).take count

/-! The view state and the top-level refresh pass. -/

/-- The observable state of the view: the published highlight pool and
the rendered display surface, modelled as the list of rendered texts. -/
structure ViewState where
  highlights : List BookHighlight
  display : List String
deriving Repr

/-- The user-visible error text of the pass-level catch handler. -/
def errorNotice : String := "Error loading highlights. Check console for details."

/-- The refreshHighlights method with its pass-level try and catch.  The
two operations outside the per-document guard that can throw are
injected: listing the vault files (listFiles) and rendering the display
(displayOk false models a throw inside displayHighlights).  A pass-level
failure appends the single error notice and leaves the previous pool in
place when the failure precedes the assignment; a render failure happens
after the complete pool was assigned. -/
def refreshHighlights (s : Settings) (numSem : NumSem)
    (yload : String → Except Unit (Option Frontmatter)) (bits : List Bool)
    (listFiles : Except String (List Doc)) (displayOk : Bool)
    (st : ViewState) : ViewState :=
  match listFiles with
  | .error _ => { st with display := st.display ++ [errorNotice] }
  | .ok docs =>
    let pool := refreshPool s numSem yload docs []
    if displayOk then
      { highlights := pool
        display := (getRandomHighlights s pool bits).map fun h => h.text }
    else { highlights := pool, display := st.display ++ [errorNotice] }

/-- The sampler as an operation on the view state: the source sorts a
spread copy of the stored array, so the state it returns is the state it
was given. -/
def getRandomHighlightsView (s : Settings) (st : ViewState) (bits : List Bool) :
    List BookHighlight × ViewState :=
  (getRandomHighlights s st.highlights bits, st)

/-- All boolean streams of a given length, used to enumerate the
equiprobable random outcomes of the shuffle. -/
def bitLists : Nat → List (List Bool)
  | 0 => [[]]
  | n + 1 => (bitLists n).map (true :: ·) ++ (bitLists n).map (false :: ·)

/-! Helper lemmas about the shuffle. -/

theorem insertRand_perm (x : α) (l : List α) (bs : List Bool) :
    ((insertRand x l bs).1).Perm (x :: l) := by
  induction l generalizing bs with
  | nil => simp [insertRand]
  | cons y ys ih =>
    cases bs with
    | nil => simp [insertRand]
    | cons b bs =>
      cases b with
      | true => simp [insertRand]
      | false =>
        simp only [insertRand]
        exact ((ih bs).cons y).trans (List.Perm.swap x y ys)

theorem sortRand_perm (l : List α) (bs : List Bool) : ((sortRand l bs).1).Perm l := by
  induction l generalizing bs with
  | nil => simp [sortRand]
  | cons x xs ih =>
    simp only [sortRand]
    exact (insertRand_perm x _ _).trans ((ih _).cons x)

/-! Helper lemma for the maximum-highlights cap. -/

theorem refreshPool_cap_aux (s : Settings) (numSem : NumSem)
    (yload : String → Except Unit (Option Frontmatter)) :
    ∀ (docs : List Doc) (acc : List BookHighlight),
    0 < s.maxHighlights → acc.length < s.maxHighlights →
    s.maxHighlights ≤ (acc ++ rawHighlights s numSem yload docs).length →
    refreshPool s numSem yload docs acc = (acc ++ rawHighlights s numSem yload docs).take s.maxHighlights := by
  intro docs
  induction docs with
  | nil =>
    intro acc h1 h2 h3
    exfalso
    simp [rawHighlights] at h3
    omega
  | cons d ds ih =>
    intro acc h1 h2 h3
    cases hc : d.content with
    | none =>
      simp only [refreshPool, rawHighlights, hc]
      simp only [rawHighlights, hc] at h3
      exact ih acc h1 h2 h3
    | some content =>
      cases hf : extractFrontmatter yload content with
      | none =>
        simp only [refreshPool, rawHighlights, hc, hf]
        simp only [rawHighlights, hc, hf] at h3
        exact ih acc h1 h2 h3
      | some fm =>
        by_cases hp : docPasses numSem s fm
        · simp only [refreshPool, rawHighlights, hc, hf, hp, if_pos, if_true]
          simp only [rawHighlights, hc, hf, hp, if_true] at h3
          set hs := extractHighlights s.filenameFormat content d.path fm with hhs
          by_cases hcap : s.maxHighlights ≤ (acc ++ hs).length
          · rw [if_pos ⟨h1, hcap⟩]
            rw [← List.append_assoc]
            rw [List.take_append_of_le_length hcap]
          · rw [if_neg (by omega)]
            rw [← List.append_assoc] at h3 ⊢
            exact ih (acc ++ hs) h1 (by omega) h3
        · simp only [refreshPool, rawHighlights, hc, hf, hp, if_false]
          simp only [rawHighlights, hc, hf, hp, if_false, List.nil_append] at h3
          simp only [Bool.false_eq_true, if_false, List.nil_append]
          exact ih acc h1 h2 h3

/-! Claim C1. -/

/-- C1 counterexample: on the cleaned block text consisting of the line
Highlighted colon Page colon 42, followed by a body line, the source
assigns the page field from a span that the date rule had already matched
and removed from the working text, because each rule is matched against
the original cleaned block content; under the claimed discipline, where a
successful match removes its span from the working text before the next
rule is tried, the page field would stay empty.  So the claim, as stated,
is false on this block. -/
theorem C1_counterexample :
    (extractFields ("Highlighted: Page: 42\nbody".data)).page = "42"
  ∧ (specExtractFields ("Highlighted: Page: 42\nbody".data)).page = ""
  ∧ extractFields ("Highlighted: Page: 42\nbody".data) ≠
      specExtractFields ("Highlighted: Page: 42\nbody".data) := by
  refine ⟨by decide, by decide, by decide⟩

/-- C1 (amended): the sub-field rules run in the fixed order date, page,
location, comment, each rule matching against the cleaned block content
as it was before any rule ran; a successful match stores its trimmed
capture and removes the first occurrence of its pattern from the separate
working text, which is then trimmed; afterwards the Link prefix and the
trailing reference tag are stripped and the result trimmed into the text
field.  On the example block of the claim, the extractor yields exactly
the highlight with date 2023-01-01, page 42, comment great quote and text
Some text. -/
theorem C1_extractor_example :
    extractHighlights "\x7b\x7btitle\x7d\x7d by \x7b\x7bauthor\x7d\x7d"
      "> [!quote]\n> Link: Some text ^ref-1234\n> Highlighted: 2023-01-01\n> Page: 42\n> My Comments: great quote"
      "Dune by Frank Herbert.md" [] =
    [{ bookTitle := "Dune", author := some "Frank Herbert", date := "2023-01-01",
       page := "42", location := "", text := "Some text", comment := "great quote",
       sourceFile := "Dune by Frank Herbert.md" }] := by
  decide

/-! Claim C2. -/

/-- C2: for every engine number semantics, the filter evaluator, for a
configured property and target, returns false on an absent property; on a
list value it matches exactly when some element stringifies and trims to
the trimmed target; on a string value that parses as a JSON array it
applies the same any-element rule to the parsed array; on any other
string it falls back to trimmed equality of the string itself; on any
other scalar it compares the trimmed String coercion; and on the spec
examples for the subtopic property it matches the two-element list,
rejects the JSON string containing only Other, and rejects the absent
property.  The evaluator is a total function, so no error is ever
raised. -/
theorem C2_filter_evaluator :
    (∀ (numSem : NumSem) (fm : Frontmatter) (prop target : String),
       fmLookup fm prop = none → filterMatches numSem fm prop target = false)
  ∧ (∀ (numSem : NumSem) (fm : Frontmatter) (prop target : String) (items : List JsValue),
       fmLookup fm prop = some (JsValue.arr items) →
       filterMatches numSem fm prop target =
         items.any fun it => jsTrimS (jsToString it) == jsTrimS target)
  ∧ (∀ (numSem : NumSem) (fm : Frontmatter) (prop target sv : String) (items : List JsValue),
       fmLookup fm prop = some (JsValue.str sv) →
       jsonParse numSem sv = some (JsValue.arr items) →
       filterMatches numSem fm prop target =
         items.any fun it => jsTrimS (jsToString it) == jsTrimS target)
  ∧ (∀ (numSem : NumSem) (fm : Frontmatter) (prop target sv : String),
       fmLookup fm prop = some (JsValue.str sv) →
       (∀ items, jsonParse numSem sv ≠ some (JsValue.arr items)) →
       filterMatches numSem fm prop target = (jsTrimS sv == jsTrimS target))
  ∧ (∀ (numSem : NumSem) (fm : Frontmatter) (prop target : String) (v : JsValue),
       fmLookup fm prop = some v →
       (∀ items, v ≠ JsValue.arr items) → (∀ sv, v ≠ JsValue.str sv) →
       filterMatches numSem fm prop target = (jsTrimS (jsToString v) == jsTrimS target))
  ∧ (∀ numSem : NumSem,
       filterMatches numSem
         [("subtopic", JsValue.arr [JsValue.str "Book Highlights", JsValue.str "Fiction"])]
         "subtopic" "Book Highlights" = true)
  ∧ (∀ numSem : NumSem,
       filterMatches numSem [("subtopic", JsValue.str "[\"Other\"]")]
         "subtopic" "Book Highlights" = false)
  ∧ (∀ numSem : NumSem,
       filterMatches numSem [] "subtopic" "Book Highlights" = false) := by
  refine ⟨?_, ?_, ?_, ?_, ?_, ?_, ?_, ?_⟩
  · intro numSem fm prop target h
    simp [filterMatches, h]
  · intro numSem fm prop target items h
    simp [filterMatches, h]
  · intro numSem fm prop target sv items h hj
    simp [filterMatches, h, hj]
  · intro numSem fm prop target sv h hj
    simp only [filterMatches, h]
  · intro numSem fm prop target v h harr hstr
    simp only [filterMatches, h]
  · intro numSem
    rfl
  · intro numSem
    rfl
  · intro numSem
    rfl

/-- C2 witness: the absent-property case applied at the subtopic example
and the identity number semantics. -/
theorem C2_witness :
    fmLookup ([] : Frontmatter) "subtopic" = none
  ∧ filterMatches (fun r => r) [] "subtopic" "Book Highlights" = false :=
  ⟨rfl, C2_filter_evaluator.1 (fun r => r) [] "subtopic" "Book Highlights" rfl⟩

/-! Claim C3. -/

/-- C3: the filename parser strips the extension case-insensitively,
builds the anchored greedy pattern from the format, and assigns captures
as claimed: both placeholders present assigns by first occurrence order,
a single placeholder (title or author alike) assigns the single capture
to the title with the author absent, and a failed match falls back to the
full basename as title.  The two concrete examples of the claim evaluate
as stated. -/
theorem C3_filename_parsing :
    (parseTitleAndAuthor "\x7b\x7btitle\x7d\x7d by \x7b\x7bauthor\x7d\x7d"
       "Dune by Frank Herbert.md" = { title := "Dune", author := some "Frank Herbert" })
  ∧ (parseTitleAndAuthor "\x7b\x7btitle\x7d\x7d" "Notes.md"
       = { title := "Notes", author := none })
  ∧ (∀ fmt fn : String, fmt.isEmpty = false →
       matchFormat fmt (String.mk (stripExtL fn.data)) = none →
       parseTitleAndAuthor fmt fn = { title := String.mk (stripExtL fn.data), author := none })
  ∧ (∀ (fmt fn : String) (caps : List String) (ti ai : Nat), fmt.isEmpty = false →
       matchFormat fmt (String.mk (stripExtL fn.data)) = some caps →
       indexOfSub titlePH fmt.data = some ti →
       indexOfSub authorPH fmt.data = some ai →
       parseTitleAndAuthor fmt fn =
         if ti < ai then { title := caps.getD 0 "", author := some (caps.getD 1 "") }
         else { title := caps.getD 1 "", author := some (caps.getD 0 "") })
  ∧ (∀ (fmt fn : String) (caps : List String) (ti : Nat), fmt.isEmpty = false →
       matchFormat fmt (String.mk (stripExtL fn.data)) = some caps →
       indexOfSub titlePH fmt.data = some ti →
       indexOfSub authorPH fmt.data = none →
       parseTitleAndAuthor fmt fn = { title := caps.getD 0 "", author := none })
  ∧ (∀ (fmt fn : String) (caps : List String) (ai : Nat), fmt.isEmpty = false →
       matchFormat fmt (String.mk (stripExtL fn.data)) = some caps →
       indexOfSub titlePH fmt.data = none →
       indexOfSub authorPH fmt.data = some ai →
       parseTitleAndAuthor fmt fn = { title := caps.getD 0 "", author := none }) := by
  refine ⟨?_, ?_, ?_, ?_, ?_, ?_⟩
  · decide
  · decide
  · intro fmt fn hne hm
    simp [parseTitleAndAuthor, hne, hm]
  · intro fmt fn caps ti ai hne hm hti hai
    simp [parseTitleAndAuthor, hne, hm, hti, hai]
  · intro fmt fn caps ti hne hm hti hai
    simp [parseTitleAndAuthor, hne, hm, hti, hai]
  · intro fmt fn caps ai hne hm hti hai
    simp [parseTitleAndAuthor, hne, hm, hti, hai]

/-- C3 witness: the fallback case applied at a non-matching filename. -/
theorem C3_witness :
    ("x" : String).isEmpty = false
  ∧ matchFormat "x" (String.mk (stripExtL ("y.md".data))) = none
  ∧ parseTitleAndAuthor "x" "y.md"
      = { title := String.mk (stripExtL ("y.md".data)), author := none } :=
  ⟨by decide, by decide, C3_filename_parsing.2.2.1 "x" "y.md" (by decide) (by decide)⟩

/-! Claim C4. -/

/-- A concrete highlight used to probe the sampler. -/
def c4Highlight (t : String) : BookHighlight :=
  { bookTitle := "B", author := none, date := "", page := "", location := "",
    text := t, comment := "", sourceFile := "f" }

/-- A three-element pool of distinct highlights. -/
def c4Pool : List BookHighlight := [c4Highlight "a", c4Highlight "b", c4Highlight "c"]

/-- Settings requesting three random highlights. -/
def c4Settings : Settings :=
  { filterProperty := "", filterValue := "", filenameFormat := "",
    maxHighlights := 0, randomHighlightsCount := 3 }

/-- The sampler outcome for each of the eight equiprobable comparator
streams of length three (three fair comparisons fully determine a run on
a three-element pool). -/
def c4Outcomes : List (List BookHighlight) :=
  (bitLists 3).map fun bs => getRandomHighlights c4Settings c4Pool bs

/-- C4 counterexample: over the eight equiprobable random comparator
streams, the identity ordering of the three-element pool occurs twice
while another ordering occurs once, so the selection produced by the
random-comparator sort is not uniform over permutations of the pool, and
the uniformity asserted by the claim fails.  (Eight equiprobable outcomes
can never distribute uniformly over six permutations.) -/
theorem C4_counterexample :
    c4Outcomes.count [c4Highlight "a", c4Highlight "b", c4Highlight "c"] ≠
    c4Outcomes.count [c4Highlight "b", c4Highlight "a", c4Highlight "c"] := by
  decide

/-- C4 (amended): the sampler returns a selection of exactly
min(requested count, pool size) highlights drawn from the pool — a prefix
of a randomly shuffled copy, distinct whenever the pool has no
duplicates — and returns the empty sequence on an empty pool; the
distribution is not required to be uniform over permutations. -/
theorem C4_sampler_size_and_membership (s : Settings) (pool : List BookHighlight)
    (bits : List Bool) :
    (getRandomHighlights s pool bits).length = min s.randomHighlightsCount pool.length
  ∧ (∀ hl ∈ getRandomHighlights s pool bits, hl ∈ pool)
  ∧ (pool.Nodup → (getRandomHighlights s pool bits).Nodup)
  ∧ (pool = [] → getRandomHighlights s pool bits = []) := by
  unfold getRandomHighlights
  cases hp : pool.isEmpty
  · have hperm := sortRand_perm pool bits
    simp only [Bool.false_eq_true, if_false]
    refine ⟨?_, ?_, ?_, ?_⟩
    · simp only [List.length_take, hperm.length_eq]
      omega
    · intro hl hmem
      exact hperm.subset (List.take_subset _ _ hmem)
    · intro hnd
      exact (hperm.nodup_iff.mpr hnd).sublist (List.take_sublist _ _)
    · intro hpool
      rw [hpool] at hp
      simp at hp
  · have hpool : pool = [] := by
      cases pool with
      | nil => rfl
      | cons a l => simp at hp
    subst hpool
    simp

/-- C4 witness: the distinctness part applied at the concrete pool. -/
theorem C4_witness :
    c4Pool.Nodup ∧ (getRandomHighlights c4Settings c4Pool []).Nodup :=
  ⟨by decide, (C4_sampler_size_and_membership c4Settings c4Pool []).2.2.1 (by decide)⟩

/-! Claim C5. -/

/-- C5: whenever the cap is positive and the scan in document order would
produce strictly more raw highlights than the cap, the accumulated pool
handed to the sampler is exactly the first cap-many raw highlights in
scan order: the truncation happens at the cap boundary, with no
reordering, via the single top-level early exit of the accumulation
loop. -/
theorem C5_max_highlights_cap (s : Settings) (numSem : NumSem)
    (yload : String → Except Unit (Option Frontmatter)) (docs : List Doc)
    (h1 : 0 < s.maxHighlights)
    (h2 : s.maxHighlights < (rawHighlights s numSem yload docs).length) :
    refreshPool s numSem yload docs [] =
      (rawHighlights s numSem yload docs).take s.maxHighlights := by
  have h := refreshPool_cap_aux s numSem yload docs [] h1 (by simpa using h1)
    (by simpa using Nat.le_of_lt h2)
  simpa using h

/-- Settings with a cap of two highlights and no filtering. -/
def c5Settings : Settings :=
  { filterProperty := "", filterValue := "", filenameFormat := "",
    maxHighlights := 2, randomHighlightsCount := 5 }

/-- A stand-in decoder mapping every frontmatter block to the empty
mapping. -/
def c5Yaml : String → Except Unit (Option Frontmatter) := fun _ => .ok (some [])

/-- Two documents producing three raw highlights in total. -/
def c5Docs : List Doc :=
  [{ path := "a.md", content := some "---\nx\n---\n> [!a]\n> A\n\n> [!b]\n> B" },
   { path := "b.md", content := some "---\nx\n---\n> [!c]\n> C" }]

/-- C5 witness: the cap theorem applied at a corpus of three raw
highlights with a cap of two. -/
theorem C5_witness :
    0 < c5Settings.maxHighlights
  ∧ c5Settings.maxHighlights < (rawHighlights c5Settings (fun r => r) c5Yaml c5Docs).length
  ∧ refreshPool c5Settings (fun r => r) c5Yaml c5Docs [] =
      (rawHighlights c5Settings (fun r => r) c5Yaml c5Docs).take c5Settings.maxHighlights :=
  ⟨by decide, by decide,
   C5_max_highlights_cap c5Settings (fun r => r) c5Yaml c5Docs (by decide) (by decide)⟩

/-! Claim C6. -/

/-- A stand-in decoder for the counterexample that returns on the block
enclosed by the delimiters exactly the mapping js-yaml returns on it, and
fails elsewhere. -/
def c6YamlStub : String → Except Unit (Option Frontmatter) := fun s =>
  if s = "title: x" then .ok (some [("title", JsValue.str "x")]) else .error ()

/-- C6 counterexample: in the text below the closing delimiter line is
followed by extra characters, so the text does not contain a line
consisting only of the delimiter after the opening one; the claim then
requires the no-metadata result, yet the extractor returns a mapping,
because the regex of the source only requires the closing delimiter to
begin a line. -/
theorem C6_counterexample :
    specHasDelimiterPair "---\ntitle: x\n---extra" = false
  ∧ (extractFrontmatter c6YamlStub "---\ntitle: x\n---extra").isSome = true := by
  refine ⟨by decide, by decide⟩

/-- C6 (amended): the frontmatter extractor is a total function (it never
throws); it returns no metadata whenever the anchored frontmatter pattern
fails — the text must start with the delimiter as its entire first line
and contain a later newline immediately followed by the delimiter, which
need only begin its line — and it also returns no metadata when decoding
the enclosed block throws, while a null-ish decode yields the empty
mapping, distinct from no metadata. -/
theorem C6_no_metadata_on_failure
    (yload : String → Except Unit (Option Frontmatter)) (content : String) :
    (fmSplit content = none → extractFrontmatter yload content = none)
  ∧ (∀ block, fmSplit content = some block → yload block = .error () →
       extractFrontmatter yload content = none)
  ∧ (∀ block, fmSplit content = some block → yload block = .ok none →
       extractFrontmatter yload content = some []) := by
  refine ⟨?_, ?_, ?_⟩
  · intro h
    simp [extractFrontmatter, h]
  · intro block h hy
    simp [extractFrontmatter, h, hy]
  · intro block h hy
    simp [extractFrontmatter, h, hy]

/-- C6 witness: the no-match case applied at a plain document. -/
theorem C6_witness :
    fmSplit "no metadata here" = none
  ∧ extractFrontmatter c6YamlStub "no metadata here" = none :=
  ⟨rfl, (C6_no_metadata_on_failure c6YamlStub "no metadata here").1 rfl⟩

/-! Claim C7. -/

/-- C7: every highlight emitted by the extractor has nonempty text; a
block whose remaining text is empty after the sub-field rules, the prefix
and suffix cleanup and trimming is discarded rather than emitted. -/
theorem C7_nonempty_text (hl : BookHighlight) (formatSetting content filePath : String)
    (fm : Frontmatter)
    (h : hl ∈ extractHighlights formatSetting content filePath fm) :
    hl.text ≠ "" := by
  obtain ⟨blk, -, hmk⟩ := List.mem_filterMap.mp h
  simp only [mkBookHighlight] at hmk
  cases he : (extractFields (cleanCallout blk.2.data)).text.isEmpty
  · rw [he] at hmk
    simp only [Bool.false_eq_true, if_false, Option.some.injEq] at hmk
    subst hmk
    simp only [ne_eq, String.ext_iff]
    intro hempty
    rw [List.isEmpty_eq_false] at he
    exact he hempty
  · rw [he] at hmk
    simp at hmk

/-- A document with a single one-highlight callout. -/
def c7Content : String := "> [!note]\n> Alpha"

/-- The highlight the extractor produces for that document. -/
def c7Highlight : BookHighlight :=
  { bookTitle := "n", author := none, date := "", page := "", location := "",
    text := "Alpha", comment := "", sourceFile := "n.md" }

/-- C7 witness: the nonemptiness theorem applied at the concrete
document. -/
theorem C7_witness :
    c7Highlight ∈ extractHighlights "" c7Content "n.md" []
  ∧ c7Highlight.text ≠ "" :=
  ⟨by decide, C7_nonempty_text c7Highlight "" c7Content "n.md" [] (by decide)⟩

/-! Claim C8. -/

/-- C8: when either the configured filter property or the configured
filter value is the empty string, filtering is skipped entirely: the
filter gate accepts every frontmatter mapping, and the raw highlight
stream of the scan equals the stream in which every document in scope is
handed to the highlight extractor with no filter test. -/
theorem C8_empty_filter_passes_all (s : Settings) (numSem : NumSem)
    (yload : String → Except Unit (Option Frontmatter))
    (h : s.filterProperty = "" ∨ s.filterValue = "") :
    (∀ fm : Frontmatter, docPasses numSem s fm = true)
  ∧ (∀ docs : List Doc,
       rawHighlights s numSem yload docs = rawHighlightsUnfiltered s.filenameFormat yload docs) := by
  have hdp : ∀ fm : Frontmatter, docPasses numSem s fm = true := by
    intro fm
    unfold docPasses
    rcases h with h | h <;> simp [h]
  refine ⟨hdp, ?_⟩
  intro docs
  induction docs with
  | nil => rfl
  | cons d ds ih =>
    cases hc : d.content with
    | none => simp [rawHighlights, rawHighlightsUnfiltered, hc, ih]
    | some content =>
      cases hf : extractFrontmatter yload content with
      | none => simp [rawHighlights, rawHighlightsUnfiltered, hc, hf, ih]
      | some fm => simp [rawHighlights, rawHighlightsUnfiltered, hc, hf, hdp fm, ih]

/-- Settings with an empty filter property. -/
def c8Settings : Settings :=
  { filterProperty := "", filterValue := "Book Highlights", filenameFormat := "",
    maxHighlights := 0, randomHighlightsCount := 1 }

/-- C8 witness: with the empty property every mapping passes the gate. -/
theorem C8_witness :
    (c8Settings.filterProperty = "" ∨ c8Settings.filterValue = "")
  ∧ docPasses (fun r => r) c8Settings [("any", JsValue.str "thing")] = true :=
  ⟨Or.inl rfl,
   (C8_empty_filter_passes_all c8Settings (fun r => r) (fun _ => .error ())
      (Or.inl rfl)).1 _⟩

/-! Claim C9. -/

/-- C9: a pass-level failure surfaces exactly one user-visible error
notice on the display surface, and the published highlight pool is never
replaced by a partially accumulated one: a failure before the pass body
completes leaves the previous pool in place, and a failure during
rendering happens only after the complete pool of the pass was assigned,
so the published pool is always either the previous pool or a complete
pass result. -/
theorem C9_pass_level_failure (s : Settings) (numSem : NumSem)
    (yload : String → Except Unit (Option Frontmatter)) (bits : List Bool)
    (listFiles : Except String (List Doc)) (displayOk : Bool) (st : ViewState) :
    (∀ e, listFiles = .error e →
       refreshHighlights s numSem yload bits listFiles displayOk st =
         { st with display := st.display ++ [errorNotice] })
  ∧ (∀ docs, listFiles = .ok docs → displayOk = false →
       refreshHighlights s numSem yload bits listFiles displayOk st =
         { highlights := refreshPool s numSem yload docs []
           display := st.display ++ [errorNotice] })
  ∧ ((refreshHighlights s numSem yload bits listFiles displayOk st).highlights = st.highlights
     ∨ ∃ docs, listFiles = .ok docs ∧
         (refreshHighlights s numSem yload bits listFiles displayOk st).highlights =
           refreshPool s numSem yload docs []) := by
  refine ⟨?_, ?_, ?_⟩
  · intro e he
    subst he
    rfl
  · intro docs hd hok
    subst hd
    subst hok
    rfl
  · cases listFiles with
    | error e => exact Or.inl rfl
    | ok docs =>
      refine Or.inr ⟨docs, rfl, ?_⟩
      cases displayOk <;> rfl

/-- A concrete settings value for the failure witness. -/
def c9Settings : Settings :=
  { filterProperty := "", filterValue := "", filenameFormat := "",
    maxHighlights := 0, randomHighlightsCount := 1 }

/-- C9 witness: a failing file listing leaves the pool untouched and
appends the single error notice. -/
theorem C9_witness :
    ((Except.error "boom" : Except String (List Doc)) = Except.error "boom")
  ∧ refreshHighlights c9Settings (fun r => r) c5Yaml [] (Except.error "boom") true
      { highlights := [c4Highlight "a"], display := ["old"] } =
      { highlights := [c4Highlight "a"], display := ["old"] ++ [errorNotice] } :=
  ⟨rfl,
   (C9_pass_level_failure c9Settings (fun r => r) c5Yaml [] (Except.error "boom") true
      { highlights := [c4Highlight "a"], display := ["old"] }).1 "boom" rfl⟩

/-! Claim C10. -/

/-- C10: sampling for display reads the stored pool but never mutates it:
the source sorts a spread copy of the stored array, so the view state
coming out of the sampler is the state that went in — same highlight
elements in the same order, same display — while the returned selection is
the pure sampling function of the stored pool. -/
theorem C10_sampler_preserves_pool (s : Settings) (st : ViewState) (bits : List Bool) :
    (getRandomHighlightsView s st bits).2.highlights = st.highlights
  ∧ (getRandomHighlightsView s st bits).2.display = st.display
  ∧ (getRandomHighlightsView s st bits).1 = getRandomHighlights s st.highlights bits :=
  ⟨rfl, rfl, rfl⟩

end RandomHighlight
